import Mathlib

/-!
# Verification of the installment-expense and month-ledger core

Shallow embedding of the installment-expense materialization and
month-ledger consistency logic of a personal-budgeting single-page
application, together with proofs of the specified properties.

Conventions of the embedding:
* A JS month key string `"YYYY-M"` is modelled as a `MonthKey` structure
  with integer `year`/`month` fields; the JS `Date`-based normalization
  of `new Date(y, m, 1)` is floor division / floor modulus by 12, which
  for the positive modulus 12 coincides with Lean's `Int` `/` and `%`
  (Euclidean convention).
* Monetary amounts are carried in integer cents (`Int`).  The source
  stores decimal currency values and converts with `Math.round(x*100)`
  / `/100` exactly at the splitter's boundary; the splitter itself is
  integer-cent arithmetic, which is what is embedded.
* The id strings produced from `Date.now()` and `Math.random()` are
  modelled by a monotone counter `nextId : Nat` threaded through the
  state; each generated expense id / installment group id consumes one
  counter value, which models their freshness.
* `typeof x === 'number'` checks on optional payload fields become
  `Option.isSome`; absent fields are `none`.
* The asynchronous ledger store is modelled synchronously: `saveExpense`
  appends to a stored list (all call sites use fresh ids, so upsert
  equals append), `saveBudgets` updates a `MonthKey → Option Budget`
  map.
-/

/-- A calendar month, the parsed form of a `"YYYY-M"` month-key string. -/
structure MonthKey where
  year : Int
  month : Int
deriving DecidableEq, Repr

/-- `addMonthsToMonthKey`: shift a month key by `offset` months.
The source builds `new Date(y, (m - 1) + offset, 1)` and reads back
year and month; JS `Date` normalizes an out-of-range month index by
floor division/modulus, i.e. `year + (m-1+offset) / 12` and
`(m-1+offset) % 12 + 1` with Euclidean `/`/`%` (the divisor 12 is
positive). -/
def addMonthsToMonthKey (k : MonthKey) (offset : Int) : MonthKey :=
  let t : Int := k.month - 1 + offset
  ⟨k.year + t / 12, t % 12 + 1⟩

/-- The chronological comparison used throughout the dispatcher:
`ey > cy || (ey === cy && em > cm)` — `a` is strictly later than `b`. -/
def monthAfter (a b : MonthKey) : Bool :=
  b.year < a.year || (a.year == b.year && b.month < a.month)

/-- `a` is not later than `b` (the derived non-strict order). -/
def monthLE (a b : MonthKey) : Bool :=
  !(monthAfter a b)

theorem monthAfter_iff (a b : MonthKey) :
    monthAfter a b = true ↔ b.year < a.year ∨ (a.year = b.year ∧ b.month < a.month) := by
  simp [monthAfter]

theorem monthLE_iff (a b : MonthKey) :
    monthLE a b = true ↔ a.year < b.year ∨ (a.year = b.year ∧ a.month ≤ b.month) := by
  simp only [monthLE, monthAfter, Bool.not_eq_true', Bool.or_eq_false_iff,
    Bool.and_eq_false_iff]
  constructor
  · rintro ⟨h1, h2⟩
    simp only [decide_eq_false_iff_not, not_lt, beq_eq_false_iff_ne, ne_eq] at h1 h2
    rcases h2 with h2 | h2
    · omega
    · omega
  · intro h
    constructor
    · simp only [decide_eq_false_iff_not, not_lt]
      omega
    · rcases h with h | h
      · left; simp only [beq_eq_false_iff_ne, ne_eq]; omega
      · right; simp only [decide_eq_false_iff_not, not_lt]; omega

theorem monthLE_refl (a : MonthKey) : monthLE a a = true := by
  rw [monthLE_iff]; omega

theorem monthLE_trans {a b c : MonthKey} (h1 : monthLE a b = true)
    (h2 : monthLE b c = true) : monthLE a c = true := by
  rw [monthLE_iff] at h1 h2 ⊢; omega

/-- `splitAmountIntoInstallments` in integer cents: `base = ⌊cents/count⌋`,
`remainder = cents - base*count`, entry `i` is `base` plus one extra cent
when `i < remainder`.  (The source converts a decimal total to cents with
`Math.round(total*100)` on entry and divides each entry by 100 on exit;
the arithmetic in between, embedded here, is exact integer arithmetic.) -/
def splitAmountIntoInstallments (cents : Int) (count : Nat) : List Int :=
  let base := cents / count
  let remainder := cents - base * count
  (List.range count).map (fun (i : Nat) => base + if (i : Int) < remainder then 1 else 0)

/-- Sum of `base` plus an indicator over an initial segment. -/
theorem sum_base_add_indicator (n : Nat) (b r : Int) :
    ((List.range n).map (fun (i : Nat) => b + if (i : Int) < r then (1 : Int) else 0)).sum
      = n * b + min (max r 0) n := by
  induction n with
  | zero => simp
  | succ n ih =>
    rw [List.range_succ, List.map_append, List.sum_append, ih]
    simp only [List.map_cons, List.map_nil, List.sum_cons, List.sum_nil]
    have hb : ((n : Int) + 1) * b = (n : Int) * b + b := by ring
    by_cases h : (n : Int) < r
    · simp only [if_pos h]
      push_cast
      omega
    · simp only [if_neg h]
      push_cast
      omega

theorem splitAmountIntoInstallments_length (cents : Int) (count : Nat) :
    (splitAmountIntoInstallments cents count).length = count := by
  simp [splitAmountIntoInstallments]

theorem splitAmountIntoInstallments_sum (cents : Int) (count : Nat)
    (h1 : 1 ≤ count) :
    (splitAmountIntoInstallments cents count).sum = cents := by
  simp only [splitAmountIntoInstallments]
  rw [sum_base_add_indicator]
  have hc : (0 : Int) < (count : Int) := by exact_mod_cast h1
  have hdiv := Int.ediv_add_emod cents count
  have hmod0 : 0 ≤ cents % (count : Int) := Int.emod_nonneg cents (by omega)
  have hmodlt : cents % (count : Int) < count := Int.emod_lt_of_pos cents hc
  have hcomm : cents / (count : Int) * (count : Int)
      = (count : Int) * (cents / (count : Int)) := Int.mul_comm _ _
  omega

theorem splitAmountIntoInstallments_mem (cents : Int) (count : Nat)
    (x : Int) (hx : x ∈ splitAmountIntoInstallments cents count) :
    x = cents / count ∨ x = cents / count + 1 := by
  unfold splitAmountIntoInstallments at hx
  simp only [List.mem_map, List.mem_range] at hx
  obtain ⟨i, _, hi⟩ := hx
  by_cases h : (i : Int) < cents - cents / count * count
  · right; rw [← hi]; simp [h]
  · left; rw [← hi]; simp [h]

theorem splitAmountIntoInstallments_closed_form (cents : Int) (count : Nat) :
    splitAmountIntoInstallments cents count
      = (List.range count).map
          (fun (i : Nat) =>
            if (i : Int) < cents - cents / count * count
            then cents / count + 1 else cents / count) := by
  simp only [splitAmountIntoInstallments]
  apply List.map_congr_left
  intro i _
  by_cases h : (i : Int) < cents - cents / count * count
  · simp [h]
  · simp [h]

theorem addMonthsToMonthKey_add (k : MonthKey) (o1 o2 : Int) :
    addMonthsToMonthKey (addMonthsToMonthKey k o1) o2
      = addMonthsToMonthKey k (o1 + o2) := by
  simp only [addMonthsToMonthKey, MonthKey.mk.injEq]
  omega

/-- C6: shifting a month key by `o1` and then `o2` equals shifting by
`o1 + o2`; the identity holds for arbitrary integer offsets, in
particular for negative ones crossing year boundaries. -/
theorem addMonthsToMonthKey_comp (k : MonthKey) (o1 o2 : Int) :
    addMonthsToMonthKey (addMonthsToMonthKey k o1) o2
      = addMonthsToMonthKey k (o1 + o2) :=
  addMonthsToMonthKey_add k o1 o2

/-- C2: for every cent total `≥ 0` and count `≥ 2`, the splitter returns
exactly `count` amounts that sum exactly to the total, each equal to
`⌊total/count⌋` except the first `total - ⌊total/count⌋·count` entries
which receive one extra cent; hence any two returned amounts differ by
at most one cent. -/
theorem splitAmountIntoInstallments_spec (cents : Int) (count : Nat)
    (h0 : 0 ≤ cents) (h2 : 2 ≤ count) :
    (splitAmountIntoInstallments cents count).length = count ∧
    (splitAmountIntoInstallments cents count).sum = cents ∧
    splitAmountIntoInstallments cents count
      = (List.range count).map
          (fun (i : Nat) =>
            if (i : Int) < cents - cents / count * count
            then cents / count + 1 else cents / count) ∧
    (∀ x ∈ splitAmountIntoInstallments cents count,
      ∀ y ∈ splitAmountIntoInstallments cents count, x - y ≤ 1) := by
  refine ⟨splitAmountIntoInstallments_length cents count,
    splitAmountIntoInstallments_sum cents count (by omega),
    splitAmountIntoInstallments_closed_form cents count, ?_⟩
  intro x hx y hy
  rcases splitAmountIntoInstallments_mem cents count x hx with h | h <;>
    rcases splitAmountIntoInstallments_mem cents count y hy with h' | h' <;>
      omega

/-- Witness for C2 at `cents = 10000`, `count = 3` (Scenario A:
R$100.00 in 3 installments is 3334 + 3333 + 3333 cents). -/
theorem splitAmountIntoInstallments_spec_witness :
    (0 : Int) ≤ 10000 ∧ 2 ≤ 3 ∧
    ((splitAmountIntoInstallments 10000 3).length = 3 ∧
     (splitAmountIntoInstallments 10000 3).sum = 10000 ∧
     splitAmountIntoInstallments 10000 3
       = (List.range 3).map
           (fun (i : Nat) =>
             if (i : Int) < 10000 - 10000 / (3 : Nat) * (3 : Nat)
             then 10000 / (3 : Nat) + 1 else 10000 / (3 : Nat)) ∧
     (∀ x ∈ splitAmountIntoInstallments 10000 3,
       ∀ y ∈ splitAmountIntoInstallments 10000 3, x - y ≤ 1)) :=
  ⟨by decide, by decide, splitAmountIntoInstallments_spec 10000 3 (by decide) (by decide)⟩

/-- The concrete Scenario A check: 10000 cents in 3 parts. -/
theorem splitAmountIntoInstallments_scenarioA :
    splitAmountIntoInstallments 10000 3 = [3334, 3333, 3333] := by decide

/-! ## Data model of the resolver and dispatcher -/

/-- A Budget object: category name → amount, as a key-ordered
association list (JS object with string keys). -/
abbrev Budget := List (String × Int)

/-- Budget key lookup (exact key match, as JS property access). -/
def budgetLookup (b : Budget) (k : String) : Option Int :=
  (b.find? (fun p => p.1 == k)).map (fun p => p.2)

/-- JS object spread `{...a, ...patch}`: keys of `patch` override, the
other keys of `a` are kept.  (JS keeps an overridden key at its original
position; only lookup semantics matter here, and they agree.) -/
def budgetMerge (a patch : Budget) : Budget :=
  a.filter (fun p => !(patch.any (fun q => q.1 == p.1))) ++ patch

/-- JS `delete obj[key]` (exact key match). -/
def budgetDeleteKey (b : Budget) (k : String) : Budget :=
  b.filter (fun p => !(p.1 == k))

/-- JS `String.prototype.toLowerCase`, as a character-wise map (written
on the character list so that it reduces definitionally). -/
def strToLower (s : String) : String :=
  ⟨s.data.map Char.toLower⟩

/-- The local category validation of `applyAddExpensePayload`:
`Object.keys(budgets).some(k => k.toLowerCase() === cat.toLowerCase())`. -/
def categoryExistsInBudgets (b : Budget) (cat : String) : Bool :=
  b.any (fun p => strToLower p.1 == strToLower cat)

/-- A persisted expense record.  Ids and installment group ids are
modelled as counter values (the source derives them from
`Date.now()`/`Math.random()`); `installmentInfo` is the position label
string `"i/count"`. -/
structure Expense where
  id : Nat
  category : String
  amount : Int
  month : MonthKey
  description : Option String := none
  installmentGroupId : Option Nat := none
  installmentInfo : Option String := none
deriving DecidableEq, Repr

/-- The `baseMonth` directive of an installment request. -/
inductive BaseMonth where
  | viewed
  | current
deriving DecidableEq, Repr

/-- The `installments` sub-object of an `ExpenseIntent`. -/
structure InstallmentsDirective where
  count : Nat
  amountPerInstallment : Option Int := none
  totalAmount : Option Int := none
  baseMonth : Option BaseMonth := none
  startOffsetMonths : Option Int := none
deriving DecidableEq, Repr

/-- One entry of the current-shape `ADD_EXPENSE` payload. -/
structure ExpenseIntent where
  category : String
  description : Option String := none
  amount : Option Int := none
  installments : Option InstallmentsDirective := none
deriving DecidableEq, Repr

/-- One entry of the legacy `ADD_EXPENSE` payload shape (month
precomputed by the caller, optional caller-assigned group id). -/
structure LegacyExpenseEntry where
  category : String
  amount : Int
  month : Option MonthKey := none
  description : Option String := none
  installmentGroupId : Option Nat := none
  installmentInfo : Option String := none
deriving DecidableEq, Repr

/-- Diagnostic emitted for an intent whose category is not in the viewed
month's budgets (the Portuguese text, quotes elided). -/
def missingCategoryMsg (cat : String) : String :=
  "Categoria " ++ cat ++ " nao existe neste mes. Quer cria-la ou usar outra?"

/-- Diagnostic for an installment intent with neither
`amountPerInstallment` nor `totalAmount` a number. -/
def unrecognizedInstallmentValueMsg (cat : String) : String :=
  "Nao entendi o valor das parcelas em " ++ cat ++ ". Informe total ou valor por parcela."

/-- Diagnostic for an intent matching neither branch (no installments
with count > 1 and no numeric `amount`). -/
def unrecognizedValueMsg (cat : String) : String :=
  "Lancamento em " ++ cat ++ " sem valor reconhecido."

/-- The state threaded through `applyAddExpensePayload`'s loop: the
store contents, the two in-memory lists, the chat transcript (model
messages only), the `maxMonth` accumulator and the fresh-id counter. -/
structure ExecState where
  storeExpenses : List Expense
  expenses : List Expense
  allExpenses : List Expense
  chatHistory : List String
  maxMonth : MonthKey
  nextId : Nat
deriving DecidableEq, Repr

/-- `const baseMonthSrc = req.installments?.baseMonth || 'viewed'`,
then `'current' ? currentMonth : viewedMonth`. -/
def baseMonthKeyOf (req : ExpenseIntent) (viewedMonth currentMonth : MonthKey) : MonthKey :=
  match (req.installments.bind (fun ins => ins.baseMonth)).getD BaseMonth.viewed with
  | BaseMonth.current => currentMonth
  | BaseMonth.viewed => viewedMonth

/-- `req.installments?.startOffsetMonths ?? 0`. -/
def startOffsetOf (req : ExpenseIntent) : Int :=
  (req.installments.bind (fun ins => ins.startOffsetMonths)).getD 0

/-- One `saveExpense` plus the in-memory bookkeeping of the loop body:
append to the store, append to the visible list when the expense's month
is the viewed month, append to the all-expenses list, and bump the
`maxMonth` accumulator when the expense's month is later. -/
def recordExpense (viewedMonth : MonthKey) (st : ExecState) (e : Expense) : ExecState :=
  { st with
    storeExpenses := st.storeExpenses ++ [e],
    expenses := if e.month = viewedMonth then st.expenses ++ [e] else st.expenses,
    allExpenses := st.allExpenses ++ [e],
    maxMonth := if monthAfter e.month st.maxMonth then e.month else st.maxMonth }

/-- The per-installment amounts: replicate `amountPerInstallment` when
it is a number, otherwise split `totalAmount` when that is a number,
otherwise `none`. -/
def perInstallmentAmounts (ins : InstallmentsDirective) : Option (List Int) :=
  match ins.amountPerInstallment with
  | some a => some (List.replicate ins.count a)
  | none =>
    match ins.totalAmount with
    | some t => some (splitAmountIntoInstallments t ins.count)
    | none => none

/-- The `i`-th expense record materialized for an installment intent. -/
def mkInstallmentExpense (req : ExpenseIntent) (baseMonthKey : MonthKey)
    (startOffset : Int) (groupId idBase : Nat) (count : Nat)
    (amounts : List Int) (i : Nat) : Expense :=
  { id := idBase + i,
    category := req.category,
    amount := amounts.getD i 0,
    month := addMonthsToMonthKey baseMonthKey (startOffset + i),
    description := req.description,
    installmentGroupId := some groupId,
    installmentInfo := some (toString (i + 1) ++ "/" ++ toString count) }

/-- The installment branch of the resolver (`req.installments.count > 1`):
generate a fresh group id, determine the per-installment amounts
(diagnostic when neither value field is a number), then create and
record `count` expenses. -/
def applyInstallmentIntent (viewedMonth : MonthKey) (st : ExecState)
    (req : ExpenseIntent) (ins : InstallmentsDirective)
    (baseMonthKey : MonthKey) (startOffset : Int) : ExecState :=
  let groupId := st.nextId
  let st1 := { st with nextId := st.nextId + 1 }
  match perInstallmentAmounts ins with
  | none =>
    { st1 with chatHistory := st1.chatHistory ++ [unrecognizedInstallmentValueMsg req.category] }
  | some amounts =>
    let created := (List.range ins.count).map
      (mkInstallmentExpense req baseMonthKey startOffset groupId st1.nextId ins.count amounts)
    let st2 := { st1 with nextId := st1.nextId + ins.count }
    created.foldl (recordExpense viewedMonth) st2

/-- The fallback branch of the resolver: one simple expense when
`typeof req.amount === 'number'`, otherwise a diagnostic. -/
def applySimpleIntent (viewedMonth : MonthKey) (st : ExecState)
    (req : ExpenseIntent) (baseMonthKey : MonthKey) (startOffset : Int) : ExecState :=
  match req.amount with
  | some amt =>
    let e : Expense :=
      { id := st.nextId,
        category := req.category,
        amount := amt,
        month := addMonthsToMonthKey baseMonthKey startOffset,
        description := req.description }
    recordExpense viewedMonth { st with nextId := st.nextId + 1 } e
  | none =>
    { st with chatHistory := st.chatHistory ++ [unrecognizedValueMsg req.category] }

/-- One iteration of `applyAddExpensePayload`'s `for (const req of
payload.expenses)` loop: category validation, base-month resolution,
then the installment / simple / diagnostic branches.  (The guard
`req.installments?.count && req.installments.count > 1` is equivalent
to `count > 1` since `0` is falsy.) -/
def processIntent (viewedMonth currentMonth : MonthKey) (budgets : Budget)
    (st : ExecState) (req : ExpenseIntent) : ExecState :=
  if categoryExistsInBudgets budgets req.category then
    let baseMonthKey := baseMonthKeyOf req viewedMonth currentMonth
    let startOffset := startOffsetOf req
    match req.installments with
    | some ins =>
      if 1 < ins.count then
        applyInstallmentIntent viewedMonth st req ins baseMonthKey startOffset
      else
        applySimpleIntent viewedMonth st req baseMonthKey startOffset
    | none => applySimpleIntent viewedMonth st req baseMonthKey startOffset
  else
    { st with chatHistory := st.chatHistory ++ [missingCategoryMsg req.category] }

/-- The application state touched by the dispatcher: the viewed month's
budget snapshot, the persisted budget map and expense list, the two
in-memory expense lists, the chat transcript (model messages only), the
two month pointers and the fresh-id counter. -/
structure AppState where
  budgets : Budget
  storeBudgets : MonthKey → Option Budget
  expenses : List Expense
  allExpenses : List Expense
  storeExpenses : List Expense
  chatHistory : List String
  viewedMonth : MonthKey
  currentMonth : MonthKey
  nextId : Nat

/-- The loop-carried state at entry of `applyAddExpensePayload`:
`maxMonth` starts at `currentMonth`. -/
def ExecState.ofApp (s : AppState) : ExecState :=
  { storeExpenses := s.storeExpenses,
    expenses := s.expenses,
    allExpenses := s.allExpenses,
    chatHistory := s.chatHistory,
    maxMonth := s.currentMonth,
    nextId := s.nextId }

/-- `applyAddExpensePayload`: early return on an empty payload
(`if (!payload?.expenses?.length) return`), otherwise run the per-intent
loop and finally advance `currentMonth` to the tracked `maxMonth` when
it changed. -/
def applyAddExpensePayload (s : AppState) (payload : List ExpenseIntent) : AppState :=
  if payload.isEmpty then s
  else
    let fin := payload.foldl (processIntent s.viewedMonth s.currentMonth s.budgets)
      (ExecState.ofApp s)
    { s with
      storeExpenses := fin.storeExpenses,
      expenses := fin.expenses,
      allExpenses := fin.allExpenses,
      chatHistory := fin.chatHistory,
      nextId := fin.nextId,
      currentMonth := if fin.maxMonth ≠ s.currentMonth then fin.maxMonth else s.currentMonth }

/-- One record persisted by the legacy `ADD_EXPENSE` branch:
`month: exp.month || viewedMonth`; when the payload is an installment
payload, `installmentGroupId: exp.installmentGroupId ||
installmentGroupIdForGroup` and `installmentInfo` is kept, otherwise
both are `undefined`. -/
def mkLegacyExpense (viewedMonth : MonthKey) (isInstallment : Bool)
    (groupIdForGroup : Option Nat) (idBase i : Nat)
    (entry : LegacyExpenseEntry) : Expense :=
  { id := idBase + i,
    category := entry.category,
    amount := entry.amount,
    month := entry.month.getD viewedMonth,
    description := entry.description,
    installmentGroupId :=
      if isInstallment then entry.installmentGroupId.orElse (fun _ => groupIdForGroup)
      else none,
    installmentInfo := if isInstallment then entry.installmentInfo else none }

/-- The legacy `ADD_EXPENSE` compatibility branch (taken when some
payload entry carries an explicit `month`): replay the pre-computed
entries, sharing the first present group id with entries that lack one,
and advance `currentMonth` to the maximum month touched. -/
def applyLegacyAddExpense (s : AppState) (entries : List LegacyExpenseEntry) : AppState :=
  let isInstallment := entries.any (fun e => e.installmentGroupId.isSome)
  let groupIdForGroup :=
    if isInstallment then
      (entries.find? (fun e => e.installmentGroupId.isSome)).bind
        (fun e => e.installmentGroupId)
    else none
  let created := entries.enum.map
    (fun p => mkLegacyExpense s.viewedMonth isInstallment groupIdForGroup s.nextId p.1 p.2)
  let fin := created.foldl (recordExpense s.viewedMonth) (ExecState.ofApp s)
  { s with
    storeExpenses := fin.storeExpenses,
    expenses := fin.expenses,
    allExpenses := fin.allExpenses,
    chatHistory := fin.chatHistory,
    nextId := s.nextId + entries.length,
    currentMonth := if fin.maxMonth ≠ s.currentMonth then fin.maxMonth else s.currentMonth }

/-- `saveBudgets(month, budgets)` on the persisted budget map. -/
def saveBudgets (sb : MonthKey → Option Budget) (m : MonthKey) (b : Budget) :
    MonthKey → Option Budget :=
  fun k => if k = m then some b else sb k

/-- JS truthiness of `budgets[category]`: the key is present and its
numeric value is non-zero. -/
def truthyLookup (b : Budget) (k : String) : Bool :=
  match budgetLookup b k with
  | some v => v != 0
  | none => false

/-- The stored-budget effect of `deleteCategoryFromDB` in the `utils/db`
module: `if (budgets && budgets[category]) { delete budgets[category];
await saveBudgets(month, budgets); }` — the exact `category` key is
removed from `month`'s stored budget only when that budget exists and
maps the key to a truthy (non-zero) amount; otherwise nothing is
saved. -/
def deleteCategoryFromDB_budgets (sb : MonthKey → Option Budget)
    (category : String) (month : MonthKey) : MonthKey → Option Budget :=
  match sb month with
  | some b =>
    if truthyLookup b category then saveBudgets sb month (budgetDeleteKey b category)
    else sb
  | none => sb

/-- `deleteCategoryFromDB(category, month)` from the `utils/db` module:
the guarded budget-key removal above, then the `month` store partition
(`getExpenses(month)`) loses exactly the expenses with
`expense.category === category` — an exact, case-sensitive match
(deletion is by the unique expense id, modelled as a filter). -/
def deleteCategoryFromDB (sb : MonthKey → Option Budget) (se : List Expense)
    (category : String) (month : MonthKey) :
    (MonthKey → Option Budget) × List Expense :=
  (deleteCategoryFromDB_budgets sb category month,
   se.filter (fun e => !(e.month == month && e.category == category)))

/-- A structured action from the assistant oracle, or a UI event routed
through the same state.  The source discriminates the legacy
`ADD_EXPENSE` shape from the current one by probing the entries for a
`month` field; the two shapes are two constructors here.
`clearAllData` carries the real-world current month that the source
reads from the system clock. -/
inductive AssistantAction where
  | setBudget (month : Option MonthKey) (patch : Budget)
  | addExpense (payload : List ExpenseIntent)
  | addExpenseLegacy (entries : List LegacyExpenseEntry)
  | deleteExpense (category : String) (amount : Int)
  | nextMonth (copyBudgets : Bool)
  | viewPreviousMonth (year month : Int)
  | clearAllData (realNow : MonthKey)
  | deleteCategory (category : String)
  | uiMonthChange (prev : Bool)
  | uiDeleteExpense (id : Nat)
  | noOp
deriving DecidableEq, Repr

/-- The switch of `handleSendMessage` plus the two UI handlers
(`handleMonthChange`, `handleDeleteExpense`), as a state transformer.
`noOp` covers `CANCEL_ACTION`/`GREETING`/`UNKNOWN`/`CONFIRM_ACTION`,
whose only effect is on the pending-confirmation flag, not modelled. -/
def dispatch (s : AppState) (a : AssistantAction) : AppState :=
  match a with
  | .setBudget month patch =>
    let monthToSet := month.getD s.viewedMonth
    let newBudgets := budgetMerge s.budgets patch
    let s1 := { s with storeBudgets := saveBudgets s.storeBudgets monthToSet newBudgets }
    let s2 := if monthToSet = s.viewedMonth then { s1 with budgets := newBudgets } else s1
    if monthAfter monthToSet s.currentMonth then { s2 with currentMonth := monthToSet }
    else s2
  | .addExpense payload => applyAddExpensePayload s payload
  | .addExpenseLegacy entries => applyLegacyAddExpense s entries
  | .deleteExpense category amount =>
    match s.expenses.find?
        (fun e => strToLower e.category == strToLower category && e.amount == amount) with
    | some e =>
      { s with
        storeExpenses := s.storeExpenses.filter (fun x => !(x.id == e.id)),
        expenses := s.expenses.filter (fun x => !(x.id == e.id)),
        allExpenses := s.allExpenses.filter (fun x => !(x.id == e.id)) }
    | none => s
  | .nextMonth copyBudgets =>
    let newMonthKey := addMonthsToMonthKey s.viewedMonth 1
    let s1 :=
      if copyBudgets then
        match s.storeBudgets s.viewedMonth with
        | some b => { s with storeBudgets := saveBudgets s.storeBudgets newMonthKey b }
        | none => s
      else s
    { s1 with viewedMonth := newMonthKey, currentMonth := newMonthKey }
  | .viewPreviousMonth year month => { s with viewedMonth := ⟨year, month⟩ }
  | .clearAllData realNow =>
    { s with
      budgets := [],
      storeBudgets := fun _ => none,
      expenses := [],
      allExpenses := [],
      storeExpenses := [],
      viewedMonth := realNow,
      currentMonth := realNow }
  | .deleteCategory category =>
    let cascaded := deleteCategoryFromDB s.storeBudgets s.storeExpenses category s.viewedMonth
    { s with
      storeBudgets := cascaded.1,
      storeExpenses := cascaded.2,
      budgets := budgetDeleteKey s.budgets category,
      expenses := s.expenses.filter (fun e => !(strToLower e.category == strToLower category)),
      allExpenses := s.allExpenses.filter (fun e => !(strToLower e.category == strToLower category)) }
  | .uiMonthChange prev =>
    let newMonthKey := addMonthsToMonthKey s.viewedMonth (if prev then -1 else 1)
    if monthAfter newMonthKey s.currentMonth then s
    else { s with viewedMonth := newMonthKey }
  | .uiDeleteExpense id =>
    { s with
      storeExpenses := s.storeExpenses.filter (fun x => !(x.id == id)),
      expenses := s.expenses.filter (fun x => !(x.id == id)),
      allExpenses := s.allExpenses.filter (fun x => !(x.id == id)) }
  | .noOp => s

/-! ## Helper lemmas -/

theorem monthLE_of_monthAfter {a b : MonthKey} (h : monthAfter a b = true) :
    monthLE b a = true := by
  rw [monthAfter_iff] at h
  rw [monthLE_iff]
  omega

theorem monthLE_of_not_monthAfter {a b : MonthKey} (h : monthAfter a b = false) :
    monthLE a b = true := by
  simp [monthLE, h]

theorem foldl_recordExpense_storeExpenses (v : MonthKey) (l : List Expense)
    (st : ExecState) :
    (l.foldl (recordExpense v) st).storeExpenses = st.storeExpenses ++ l := by
  induction l generalizing st with
  | nil => simp
  | cons e l ih =>
    rw [List.foldl_cons, ih]
    simp [recordExpense]

theorem foldl_recordExpense_chatHistory (v : MonthKey) (l : List Expense)
    (st : ExecState) :
    (l.foldl (recordExpense v) st).chatHistory = st.chatHistory := by
  induction l generalizing st with
  | nil => rfl
  | cons e l ih =>
    rw [List.foldl_cons, ih]
    rfl

theorem foldl_recordExpense_nextId (v : MonthKey) (l : List Expense)
    (st : ExecState) :
    (l.foldl (recordExpense v) st).nextId = st.nextId := by
  induction l generalizing st with
  | nil => rfl
  | cons e l ih =>
    rw [List.foldl_cons, ih]
    rfl

theorem recordExpense_maxMonth_mono (v : MonthKey) (st : ExecState) (e : Expense) :
    monthLE st.maxMonth (recordExpense v st e).maxMonth = true := by
  simp only [recordExpense]
  by_cases h : monthAfter e.month st.maxMonth
  · simp only [if_pos h]
    exact monthLE_of_monthAfter h
  · simp only [if_neg h]
    exact monthLE_refl _

theorem foldl_recordExpense_maxMonth_mono (v : MonthKey) (l : List Expense)
    (st : ExecState) :
    monthLE st.maxMonth ((l.foldl (recordExpense v) st).maxMonth) = true := by
  induction l generalizing st with
  | nil => exact monthLE_refl _
  | cons e l ih =>
    rw [List.foldl_cons]
    exact monthLE_trans (recordExpense_maxMonth_mono v st e) (ih _)

theorem perInstallmentAmounts_length (ins : InstallmentsDirective)
    (amounts : List Int) (h : perInstallmentAmounts ins = some amounts) :
    amounts.length = ins.count := by
  unfold perInstallmentAmounts at h
  cases hA : ins.amountPerInstallment with
  | some a =>
    rw [hA] at h
    cases h
    simp
  | none =>
    rw [hA] at h
    cases hT : ins.totalAmount with
    | some t =>
      rw [hT] at h
      cases h
      exact splitAmountIntoInstallments_length t ins.count
    | none =>
      rw [hT] at h
      cases h

theorem perInstallmentAmounts_isSome (ins : InstallmentsDirective)
    (h : ins.amountPerInstallment.isSome ∨ ins.totalAmount.isSome) :
    ∃ amounts, perInstallmentAmounts ins = some amounts := by
  unfold perInstallmentAmounts
  cases hA : ins.amountPerInstallment with
  | some a => exact ⟨_, rfl⟩
  | none =>
    cases hT : ins.totalAmount with
    | some t => exact ⟨_, rfl⟩
    | none =>
      rw [hA, hT] at h
      simp at h

/-- The installment branch, written as an explicit record list folded
into the state. -/
theorem processIntent_installment_eq (v c : MonthKey) (budgets : Budget)
    (st : ExecState) (req : ExpenseIntent) (ins : InstallmentsDirective)
    (amounts : List Int)
    (hcat : categoryExistsInBudgets budgets req.category = true)
    (hins : req.installments = some ins)
    (hcount : 1 < ins.count)
    (hamts : perInstallmentAmounts ins = some amounts) :
    processIntent v c budgets st req
      = ((List.range ins.count).map
          (mkInstallmentExpense req (baseMonthKeyOf req v c) (startOffsetOf req)
            st.nextId (st.nextId + 1) ins.count amounts)).foldl
          (recordExpense v)
          { st with nextId := st.nextId + 1 + ins.count } := by
  simp only [processIntent, hcat, if_true, hins, applyInstallmentIntent, hamts]
  rw [if_pos hcount]

/-- C1: an ADD_EXPENSE intent with an existing category (compared
case-insensitively against the viewed month's budgets), an installment
count of at least 2, and a recognized per-installment value
(`amountPerInstallment` or `totalAmount` a number) creates exactly
`count` expense records, all sharing the one freshly generated
installment-group id, the `i`-th bearing month
`shift(baseMonth, startOffset + i)` — so the months are strictly
consecutive from `shift(baseMonth, startOffset)` — and position label
`"{i+1}/{count}"`. -/
theorem processIntent_installments (v c : MonthKey) (budgets : Budget)
    (st : ExecState) (req : ExpenseIntent) (ins : InstallmentsDirective)
    (hins : req.installments = some ins)
    (hcount : 2 ≤ ins.count)
    (hcat : categoryExistsInBudgets budgets req.category = true)
    (hval : ins.amountPerInstallment.isSome ∨ ins.totalAmount.isSome) :
    ∃ created : List Expense,
      (processIntent v c budgets st req).storeExpenses
          = st.storeExpenses ++ created ∧
      created.length = ins.count ∧
      (∀ e ∈ created,
        e.installmentGroupId = some st.nextId ∧ e.category = req.category) ∧
      (∀ i, ∀ hi : i < created.length,
        created[i].month
            = addMonthsToMonthKey (baseMonthKeyOf req v c) (startOffsetOf req + i) ∧
        created[i].installmentInfo
            = some (toString (i + 1) ++ "/" ++ toString ins.count)) ∧
      (∀ i, ∀ hi : i + 1 < created.length,
        created[i + 1].month = addMonthsToMonthKey created[i].month 1) := by
  obtain ⟨amounts, hamts⟩ := perInstallmentAmounts_isSome ins hval
  refine ⟨(List.range ins.count).map
      (mkInstallmentExpense req (baseMonthKeyOf req v c) (startOffsetOf req)
        st.nextId (st.nextId + 1) ins.count amounts), ?_, ?_, ?_, ?_, ?_⟩
  · rw [processIntent_installment_eq v c budgets st req ins amounts hcat hins
      (by omega) hamts]
    rw [foldl_recordExpense_storeExpenses]
  · simp
  · intro e he
    simp only [List.mem_map, List.mem_range] at he
    obtain ⟨i, _, rfl⟩ := he
    exact ⟨rfl, rfl⟩
  · intro i hi
    simp [mkInstallmentExpense]
  · intro i hi
    simp only [List.getElem_map, List.getElem_range, mkInstallmentExpense]
    rw [addMonthsToMonthKey_add]
    congr 1
    push_cast
    ring

/-- The concrete installment directive used as the C1 witness input:
3 installments with a total of 10000 cents. -/
def sampleInstallments : InstallmentsDirective :=
  { count := 3, totalAmount := some 10000 }

/-- The concrete intent used as the C1 witness input. -/
def sampleIntent : ExpenseIntent :=
  { category := "Mercado", installments := some sampleInstallments }

/-- The concrete budget snapshot used in witnesses. -/
def sampleBudgets : Budget := [("Mercado", 50000)]

/-- The concrete loop state used in witnesses. -/
def sampleExecState : ExecState :=
  { storeExpenses := [], expenses := [], allExpenses := [], chatHistory := [],
    maxMonth := ⟨2025, 9⟩, nextId := 0 }

/-- Witness for C1 at a concrete intent (3 × of a 10000-cent total). -/
theorem processIntent_installments_witness :
    sampleIntent.installments = some sampleInstallments ∧
    2 ≤ sampleInstallments.count ∧
    categoryExistsInBudgets sampleBudgets sampleIntent.category = true ∧
    (sampleInstallments.amountPerInstallment.isSome ∨
      sampleInstallments.totalAmount.isSome) ∧
    (∃ created : List Expense,
      (processIntent ⟨2025, 9⟩ ⟨2025, 9⟩ sampleBudgets sampleExecState
          sampleIntent).storeExpenses
          = sampleExecState.storeExpenses ++ created ∧
      created.length = sampleInstallments.count ∧
      (∀ e ∈ created,
        e.installmentGroupId = some sampleExecState.nextId ∧
        e.category = sampleIntent.category) ∧
      (∀ i, ∀ hi : i < created.length,
        created[i].month
            = addMonthsToMonthKey
                (baseMonthKeyOf sampleIntent ⟨2025, 9⟩ ⟨2025, 9⟩)
                (startOffsetOf sampleIntent + i) ∧
        created[i].installmentInfo
            = some (toString (i + 1) ++ "/" ++ toString sampleInstallments.count)) ∧
      (∀ i, ∀ hi : i + 1 < created.length,
        created[i + 1].month = addMonthsToMonthKey created[i].month 1)) :=
  ⟨rfl, by decide, by decide, by decide,
    processIntent_installments ⟨2025, 9⟩ ⟨2025, 9⟩ sampleBudgets sampleExecState
      sampleIntent sampleInstallments rfl (by decide) (by decide) (by decide)⟩

theorem replicate_getD (n i : Nat) (a d : Int) (h : i < n) :
    (List.replicate n a).getD i d = a := by
  induction n generalizing i with
  | zero => omega
  | succ n ih =>
    cases i with
    | zero => simp [List.replicate]
    | succ i =>
      rw [List.replicate_succ]
      simpa using ih i (by omega)

/-- C7: when `amountPerInstallment` is a number the splitter is skipped
and every one of the `count` created records carries exactly that
literal amount; `totalAmount` is left unconstrained here, so the
`amountPerInstallment` branch takes precedence when both are present
and no relation between `count × amountPerInstallment` and any total is
validated. -/
theorem processIntent_perInstallment_literal (v c : MonthKey) (budgets : Budget)
    (st : ExecState) (req : ExpenseIntent) (ins : InstallmentsDirective) (a : Int)
    (hins : req.installments = some ins)
    (hcount : 2 ≤ ins.count)
    (hcat : categoryExistsInBudgets budgets req.category = true)
    (hA : ins.amountPerInstallment = some a) :
    ∃ created : List Expense,
      (processIntent v c budgets st req).storeExpenses
          = st.storeExpenses ++ created ∧
      created.length = ins.count ∧
      (∀ e ∈ created, e.amount = a) := by
  have hamts : perInstallmentAmounts ins = some (List.replicate ins.count a) := by
    simp [perInstallmentAmounts, hA]
  refine ⟨(List.range ins.count).map
      (mkInstallmentExpense req (baseMonthKeyOf req v c) (startOffsetOf req)
        st.nextId (st.nextId + 1) ins.count (List.replicate ins.count a)),
    ?_, ?_, ?_⟩
  · rw [processIntent_installment_eq v c budgets st req ins _ hcat hins
      (by omega) hamts]
    rw [foldl_recordExpense_storeExpenses]
  · simp
  · intro e he
    simp only [List.mem_map, List.mem_range] at he
    obtain ⟨i, hi, rfl⟩ := he
    simp only [mkInstallmentExpense]
    exact replicate_getD ins.count i a 0 hi

/-- The C7 witness directive: both value fields present, so it also
exhibits the precedence of `amountPerInstallment` over `totalAmount`
(3 × 10000 cents would not match the 99-cent total). -/
def samplePerInstallments : InstallmentsDirective :=
  { count := 3, amountPerInstallment := some 10000, totalAmount := some 99 }

/-- The C7 witness intent. -/
def samplePerIntent : ExpenseIntent :=
  { category := "Mercado", installments := some samplePerInstallments }

/-- Witness for C7 at a concrete intent carrying both value fields. -/
theorem processIntent_perInstallment_literal_witness :
    samplePerIntent.installments = some samplePerInstallments ∧
    2 ≤ samplePerInstallments.count ∧
    categoryExistsInBudgets sampleBudgets samplePerIntent.category = true ∧
    samplePerInstallments.amountPerInstallment = some 10000 ∧
    samplePerInstallments.totalAmount = some 99 ∧
    (∃ created : List Expense,
      (processIntent ⟨2025, 9⟩ ⟨2025, 9⟩ sampleBudgets sampleExecState
          samplePerIntent).storeExpenses
          = sampleExecState.storeExpenses ++ created ∧
      created.length = samplePerInstallments.count ∧
      (∀ e ∈ created, e.amount = 10000)) :=
  ⟨rfl, by decide, by decide, rfl, rfl,
    processIntent_perInstallment_literal ⟨2025, 9⟩ ⟨2025, 9⟩ sampleBudgets
      sampleExecState samplePerIntent samplePerInstallments 10000 rfl (by decide)
      (by decide) rfl⟩

/-- C9: an intent whose `installments` is present with `count ≤ 1` and
whose flat `amount` is absent reaches neither branch — the installment
branch requires `count > 1` and the fallback requires a numeric
`amount` — so zero records are created and the unrecognized-value
diagnostic is emitted (the presence of `totalAmount` or
`amountPerInstallment` is irrelevant; the intent's category is assumed
to pass the preceding category validation). -/
theorem processIntent_count_le_one (v c : MonthKey) (budgets : Budget)
    (st : ExecState) (req : ExpenseIntent) (ins : InstallmentsDirective)
    (hins : req.installments = some ins)
    (hcount : ins.count ≤ 1)
    (hamt : req.amount = none)
    (hcat : categoryExistsInBudgets budgets req.category = true) :
    processIntent v c budgets st req
      = { st with chatHistory := st.chatHistory ++ [unrecognizedValueMsg req.category] } := by
  simp only [processIntent, hcat, if_true, hins]
  rw [if_neg (by omega)]
  simp [applySimpleIntent, hamt]

/-- The C9 witness intent: one installment with only a total amount. -/
def sampleCount1Intent : ExpenseIntent :=
  { category := "Mercado",
    installments := some { count := 1, totalAmount := some 10000 } }

/-- Witness for C9 at the concrete one-installment intent. -/
theorem processIntent_count_le_one_witness :
    sampleCount1Intent.installments
        = some { count := 1, totalAmount := some 10000 } ∧
    (1 : Nat) ≤ 1 ∧
    sampleCount1Intent.amount = none ∧
    categoryExistsInBudgets sampleBudgets sampleCount1Intent.category = true ∧
    processIntent ⟨2025, 9⟩ ⟨2025, 9⟩ sampleBudgets sampleExecState sampleCount1Intent
      = { sampleExecState with
          chatHistory := sampleExecState.chatHistory
            ++ [unrecognizedValueMsg sampleCount1Intent.category] } :=
  ⟨rfl, by decide, rfl, by decide,
    processIntent_count_le_one ⟨2025, 9⟩ ⟨2025, 9⟩ sampleBudgets sampleExecState
      sampleCount1Intent { count := 1, totalAmount := some 10000 } rfl (by decide)
      rfl (by decide)⟩

theorem processIntent_missing_category_step (v c : MonthKey) (budgets : Budget)
    (st : ExecState) (req : ExpenseIntent)
    (hcat : categoryExistsInBudgets budgets req.category = false) :
    processIntent v c budgets st req
      = { st with chatHistory := st.chatHistory ++ [missingCategoryMsg req.category] } := by
  simp [processIntent, hcat]

/-- C4: an intent whose category is absent (case-insensitively) from the
viewed month's budget snapshot creates zero expense records, emits one
diagnostic message, and the rest of the batch is still processed from
the otherwise-unchanged state; in particular a singleton batch leaves
everything but the chat transcript — `currentMonth` and `viewedMonth`
included — unchanged.  The resolver is a total function, so no
exception can reach the caller. -/
theorem applyAddExpensePayload_missing_category (s : AppState)
    (req : ExpenseIntent) (rest : List ExpenseIntent)
    (hcat : categoryExistsInBudgets s.budgets req.category = false) :
    applyAddExpensePayload s (req :: rest)
        = applyAddExpensePayload
            { s with chatHistory := s.chatHistory ++ [missingCategoryMsg req.category] }
            rest ∧
    applyAddExpensePayload s [req]
        = { s with chatHistory := s.chatHistory ++ [missingCategoryMsg req.category] } := by
  constructor
  · cases rest with
    | nil =>
      simp [applyAddExpensePayload, ExecState.ofApp,
        processIntent_missing_category_step _ _ _ _ _ hcat]
    | cons r rs =>
      simp only [applyAddExpensePayload, List.isEmpty_cons, List.foldl_cons,
        processIntent_missing_category_step _ _ _ _ _ hcat]
      rfl
  · simp [applyAddExpensePayload, ExecState.ofApp,
      processIntent_missing_category_step _ _ _ _ _ hcat]

/-- The concrete application state used in witnesses. -/
def sampleAppState : AppState :=
  { budgets := sampleBudgets,
    storeBudgets := fun _ => none,
    expenses := [],
    allExpenses := [],
    storeExpenses := [],
    chatHistory := [],
    viewedMonth := ⟨2025, 9⟩,
    currentMonth := ⟨2025, 9⟩,
    nextId := 0 }

/-- A simple valid intent, used as the rest of the batch in the C4
witness. -/
def sampleSimpleIntent : ExpenseIntent :=
  { category := "Mercado", amount := some 5000 }

/-- The C4 witness intent: category absent from the budgets. -/
def missingCategoryIntent : ExpenseIntent :=
  { category := "Luz", amount := some 5000 }

/-- Witness for C4 at a concrete batch whose first intent names a
missing category. -/
theorem applyAddExpensePayload_missing_category_witness :
    categoryExistsInBudgets sampleAppState.budgets missingCategoryIntent.category
        = false ∧
    applyAddExpensePayload sampleAppState [missingCategoryIntent, sampleSimpleIntent]
        = applyAddExpensePayload
            { sampleAppState with
              chatHistory := sampleAppState.chatHistory
                ++ [missingCategoryMsg missingCategoryIntent.category] }
            [sampleSimpleIntent] ∧
    applyAddExpensePayload sampleAppState [missingCategoryIntent]
        = { sampleAppState with
            chatHistory := sampleAppState.chatHistory
              ++ [missingCategoryMsg missingCategoryIntent.category] } := by
  have h := applyAddExpensePayload_missing_category sampleAppState
    missingCategoryIntent [sampleSimpleIntent] (by decide)
  exact ⟨by decide, h.1,
    (applyAddExpensePayload_missing_category sampleAppState missingCategoryIntent []
      (by decide)).2⟩

theorem applySimpleIntent_maxMonth_mono (v : MonthKey) (st : ExecState)
    (req : ExpenseIntent) (bk : MonthKey) (off : Int) :
    monthLE st.maxMonth (applySimpleIntent v st req bk off).maxMonth = true := by
  unfold applySimpleIntent
  cases req.amount with
  | some amt => exact recordExpense_maxMonth_mono v _ _
  | none => exact monthLE_refl _

theorem applyInstallmentIntent_maxMonth_mono (v : MonthKey) (st : ExecState)
    (req : ExpenseIntent) (ins : InstallmentsDirective) (bk : MonthKey) (off : Int) :
    monthLE st.maxMonth (applyInstallmentIntent v st req ins bk off).maxMonth = true := by
  unfold applyInstallmentIntent
  cases perInstallmentAmounts ins with
  | none => exact monthLE_refl _
  | some amounts => exact foldl_recordExpense_maxMonth_mono v _ _

theorem processIntent_maxMonth_mono (v c : MonthKey) (budgets : Budget)
    (st : ExecState) (req : ExpenseIntent) :
    monthLE st.maxMonth (processIntent v c budgets st req).maxMonth = true := by
  unfold processIntent
  by_cases hcat : categoryExistsInBudgets budgets req.category
  · simp only [hcat, if_true]
    cases req.installments with
    | none => exact applySimpleIntent_maxMonth_mono v st req _ _
    | some ins =>
      dsimp only
      by_cases hc : 1 < ins.count
      · rw [if_pos hc]
        exact applyInstallmentIntent_maxMonth_mono v st req ins _ _
      · rw [if_neg hc]
        exact applySimpleIntent_maxMonth_mono v st req _ _
  · simp only [hcat, if_false]
    exact monthLE_refl _

theorem foldl_processIntent_maxMonth_mono (v c : MonthKey) (budgets : Budget)
    (payload : List ExpenseIntent) (st : ExecState) :
    monthLE st.maxMonth ((payload.foldl (processIntent v c budgets) st).maxMonth) = true := by
  induction payload generalizing st with
  | nil => exact monthLE_refl _
  | cons req rest ih =>
    rw [List.foldl_cons]
    exact monthLE_trans (processIntent_maxMonth_mono v c budgets st req) (ih _)

theorem ite_ne_self (mx cur : MonthKey) : (if mx ≠ cur then mx else cur) = mx := by
  by_cases h : mx = cur <;> simp [h]

theorem applyAddExpensePayload_viewedMonth (s : AppState) (payload : List ExpenseIntent) :
    (applyAddExpensePayload s payload).viewedMonth = s.viewedMonth := by
  unfold applyAddExpensePayload
  by_cases h : payload.isEmpty = true
  · rw [if_pos h]
  · rw [if_neg h]

theorem applyAddExpensePayload_currentMonth_mono (s : AppState)
    (payload : List ExpenseIntent) :
    monthLE s.currentMonth (applyAddExpensePayload s payload).currentMonth = true := by
  unfold applyAddExpensePayload
  by_cases h : payload.isEmpty = true
  · rw [if_pos h]
    exact monthLE_refl _
  · rw [if_neg h]
    dsimp only
    rw [ite_ne_self]
    exact foldl_processIntent_maxMonth_mono s.viewedMonth s.currentMonth s.budgets
      payload (ExecState.ofApp s)

theorem applyLegacyAddExpense_viewedMonth (s : AppState)
    (entries : List LegacyExpenseEntry) :
    (applyLegacyAddExpense s entries).viewedMonth = s.viewedMonth := rfl

theorem applyLegacyAddExpense_currentMonth_mono (s : AppState)
    (entries : List LegacyExpenseEntry) :
    monthLE s.currentMonth (applyLegacyAddExpense s entries).currentMonth = true := by
  unfold applyLegacyAddExpense
  dsimp only
  rw [ite_ne_self]
  exact foldl_recordExpense_maxMonth_mono s.viewedMonth _ (ExecState.ofApp s)

/-- The dispatcher operations that preserve the two month invariants.
`NEXT_MONTH` rewrites `currentMonth` to `viewedMonth + 1`,
`VIEW_PREVIOUS_MONTH` writes the oracle-supplied month into
`viewedMonth` unvalidated, and `CLEAR_ALL_DATA` resets both pointers to
the real-world current month; each of the three can violate one of the
invariants, so they are excluded. -/
def AssistantAction.preservesMonthInvariants : AssistantAction → Bool
  | AssistantAction.nextMonth _ => false
  | AssistantAction.viewPreviousMonth _ _ => false
  | AssistantAction.clearAllData _ => false
  | _ => true

theorem dispatch_setBudget_viewedMonth (s : AppState) (month : Option MonthKey)
    (patch : Budget) :
    (dispatch s (AssistantAction.setBudget month patch)).viewedMonth = s.viewedMonth := by
  unfold dispatch
  dsimp only
  by_cases h2 : month.getD s.viewedMonth = s.viewedMonth
  · simp only [h2, if_true]
    by_cases h1 : monthAfter s.viewedMonth s.currentMonth <;> simp [h1]
  · simp only [h2, if_false]
    by_cases h1 : monthAfter (month.getD s.viewedMonth) s.currentMonth <;> simp [h1]

theorem dispatch_setBudget_currentMonth (s : AppState) (month : Option MonthKey)
    (patch : Budget) :
    (dispatch s (AssistantAction.setBudget month patch)).currentMonth
      = if monthAfter (month.getD s.viewedMonth) s.currentMonth
        then month.getD s.viewedMonth else s.currentMonth := by
  unfold dispatch
  dsimp only
  by_cases h2 : month.getD s.viewedMonth = s.viewedMonth
  · simp only [h2, if_true]
    by_cases h1 : monthAfter s.viewedMonth s.currentMonth <;> simp [h1]
  · simp only [h2, if_false]
    by_cases h1 : monthAfter (month.getD s.viewedMonth) s.currentMonth <;> simp [h1]

/-- One invariant-preserving step: a safe action never moves
`currentMonth` backwards and re-establishes `viewedMonth ≤ currentMonth`. -/
theorem dispatch_safe_step (s : AppState) (a : AssistantAction)
    (hsafe : a.preservesMonthInvariants = true)
    (hinv : monthLE s.viewedMonth s.currentMonth = true) :
    monthLE s.currentMonth (dispatch s a).currentMonth = true ∧
    monthLE (dispatch s a).viewedMonth (dispatch s a).currentMonth = true := by
  cases a with
  | setBudget month patch =>
    rw [dispatch_setBudget_viewedMonth, dispatch_setBudget_currentMonth]
    by_cases h : monthAfter (month.getD s.viewedMonth) s.currentMonth
    · rw [if_pos h]
      exact ⟨monthLE_of_monthAfter h,
        monthLE_trans hinv (monthLE_of_monthAfter h)⟩
    · rw [if_neg h]
      exact ⟨monthLE_refl _, hinv⟩
  | addExpense payload =>
    refine ⟨applyAddExpensePayload_currentMonth_mono s payload, ?_⟩
    show monthLE (applyAddExpensePayload s payload).viewedMonth
      (applyAddExpensePayload s payload).currentMonth = true
    rw [applyAddExpensePayload_viewedMonth]
    exact monthLE_trans hinv (applyAddExpensePayload_currentMonth_mono s payload)
  | addExpenseLegacy entries =>
    refine ⟨applyLegacyAddExpense_currentMonth_mono s entries, ?_⟩
    show monthLE (applyLegacyAddExpense s entries).viewedMonth
      (applyLegacyAddExpense s entries).currentMonth = true
    rw [applyLegacyAddExpense_viewedMonth]
    exact monthLE_trans hinv (applyLegacyAddExpense_currentMonth_mono s entries)
  | deleteExpense category amount =>
    unfold dispatch
    dsimp only
    cases List.find?
        (fun e => strToLower e.category == strToLower category && e.amount == amount)
        s.expenses with
    | some e => exact ⟨monthLE_refl _, hinv⟩
    | none => exact ⟨monthLE_refl _, hinv⟩
  | nextMonth copyBudgets => simp [AssistantAction.preservesMonthInvariants] at hsafe
  | viewPreviousMonth y m => simp [AssistantAction.preservesMonthInvariants] at hsafe
  | clearAllData realNow => simp [AssistantAction.preservesMonthInvariants] at hsafe
  | deleteCategory category => exact ⟨monthLE_refl _, hinv⟩
  | uiMonthChange prev =>
    unfold dispatch
    dsimp only
    by_cases h : monthAfter (addMonthsToMonthKey s.viewedMonth (if prev = true then -1 else 1))
        s.currentMonth = true
    · rw [if_pos h]
      exact ⟨monthLE_refl _, hinv⟩
    · rw [if_neg h]
      exact ⟨monthLE_refl _,
        monthLE_of_not_monthAfter (by simpa using h)⟩
  | uiDeleteExpense id => exact ⟨monthLE_refl _, hinv⟩
  | noOp => exact ⟨monthLE_refl _, hinv⟩

/-- C3 (amended): across every sequence of the invariant-preserving
dispatcher operations — `ADD_EXPENSE` in both shapes, `SET_BUDGET`,
deletions, UI month navigation and no-ops — `currentMonth` never moves
to an earlier month and `viewedMonth` never ends up later than
`currentMonth`.  The excluded operations do violate the claim:
`NEXT_MONTH` rewrites `currentMonth` to `viewedMonth + 1` (a decrease
when a much earlier month is being viewed), `CLEAR_ALL_DATA` resets
`currentMonth` to the real-world month (a decrease when installments
had pushed it further), and `VIEW_PREVIOUS_MONTH` writes the
oracle-supplied month into `viewedMonth` with no clamp against
`currentMonth`. -/
theorem dispatch_safe_sequence_month_invariant (s : AppState)
    (acts : List AssistantAction)
    (hsafe : ∀ a ∈ acts, a.preservesMonthInvariants = true)
    (hinv : monthLE s.viewedMonth s.currentMonth = true) :
    monthLE s.currentMonth (acts.foldl dispatch s).currentMonth = true ∧
    monthLE (acts.foldl dispatch s).viewedMonth
        (acts.foldl dispatch s).currentMonth = true := by
  induction acts generalizing s with
  | nil => exact ⟨monthLE_refl _, hinv⟩
  | cons a rest ih =>
    have hstep := dispatch_safe_step s a (hsafe a (List.mem_cons_self a rest)) hinv
    have hrec := ih (dispatch s a)
      (fun b hb => hsafe b (List.mem_cons_of_mem a hb)) hstep.2
    rw [List.foldl_cons]
    exact ⟨monthLE_trans hstep.1 hrec.1, hrec.2⟩

/-- Witness for the amended C3: a concrete two-action safe sequence. -/
theorem dispatch_safe_sequence_month_invariant_witness :
    (∀ a ∈ [AssistantAction.setBudget (some ⟨2025, 12⟩) [("Mercado", 40000)],
            AssistantAction.uiMonthChange true],
        a.preservesMonthInvariants = true) ∧
    monthLE sampleAppState.viewedMonth sampleAppState.currentMonth = true ∧
    (monthLE sampleAppState.currentMonth
        (([AssistantAction.setBudget (some ⟨2025, 12⟩) [("Mercado", 40000)],
           AssistantAction.uiMonthChange true].foldl dispatch
            sampleAppState).currentMonth) = true ∧
     monthLE
        (([AssistantAction.setBudget (some ⟨2025, 12⟩) [("Mercado", 40000)],
           AssistantAction.uiMonthChange true].foldl dispatch
            sampleAppState).viewedMonth)
        (([AssistantAction.setBudget (some ⟨2025, 12⟩) [("Mercado", 40000)],
           AssistantAction.uiMonthChange true].foldl dispatch
            sampleAppState).currentMonth) = true) :=
  ⟨by decide, by decide,
    dispatch_safe_sequence_month_invariant sampleAppState
      [AssistantAction.setBudget (some ⟨2025, 12⟩) [("Mercado", 40000)],
       AssistantAction.uiMonthChange true]
      (by decide) (by decide)⟩

/-- Counterexample to C3 as stated: each of the three excluded
operations breaks an invariant at a concrete state.  `NEXT_MONTH` while
viewing 2025-10 with `currentMonth` 2026-3 moves `currentMonth` back to
2025-11; `VIEW_PREVIOUS_MONTH` with payload 2030-1 moves `viewedMonth`
past `currentMonth` 2025-5; `CLEAR_ALL_DATA` with real-world month
2025-10 moves `currentMonth` back from 2026-3. -/
theorem dispatch_month_invariant_counterexample :
    monthLE
        ({ sampleAppState with
            viewedMonth := ⟨2025, 10⟩, currentMonth := ⟨2026, 3⟩ } : AppState).currentMonth
        (dispatch
          { sampleAppState with viewedMonth := ⟨2025, 10⟩, currentMonth := ⟨2026, 3⟩ }
          (AssistantAction.nextMonth false)).currentMonth = false ∧
    monthLE
        (dispatch
          { sampleAppState with viewedMonth := ⟨2025, 5⟩, currentMonth := ⟨2025, 5⟩ }
          (AssistantAction.viewPreviousMonth 2030 1)).viewedMonth
        (dispatch
          { sampleAppState with viewedMonth := ⟨2025, 5⟩, currentMonth := ⟨2025, 5⟩ }
          (AssistantAction.viewPreviousMonth 2030 1)).currentMonth = false ∧
    monthLE
        ({ sampleAppState with currentMonth := ⟨2026, 3⟩ } : AppState).currentMonth
        (dispatch { sampleAppState with currentMonth := ⟨2026, 3⟩ }
          (AssistantAction.clearAllData ⟨2025, 10⟩)).currentMonth = false := by
  refine ⟨?_, ?_, ?_⟩ <;> decide

theorem budgetLookup_cons_pos (p : String × Int) (b : Budget) (k : String)
    (h : (p.1 == k) = true) : budgetLookup (p :: b) k = some p.2 := by
  simp [budgetLookup, List.find?, h]

theorem budgetLookup_cons_neg (p : String × Int) (b : Budget) (k : String)
    (h : (p.1 == k) = false) : budgetLookup (p :: b) k = budgetLookup b k := by
  simp [budgetLookup, List.find?, h]

theorem budgetLookup_isSome_any (b : Budget) (k : String) :
    (budgetLookup b k).isSome = b.any (fun q => q.1 == k) := by
  induction b with
  | nil => rfl
  | cons p b ih =>
    cases h : (p.1 == k) with
    | true =>
      rw [budgetLookup_cons_pos p b k h]
      simp [List.any_cons, h]
    | false =>
      rw [budgetLookup_cons_neg p b k h]
      simp [List.any_cons, h, ih]

theorem budgetMerge_nil (b : Budget) : budgetMerge [] b = b := rfl

theorem budgetMerge_cons_mem (p : String × Int) (a b : Budget)
    (h : (b.any fun q => q.1 == p.1) = true) :
    budgetMerge (p :: a) b = budgetMerge a b := by
  simp [budgetMerge, List.filter_cons, h]

theorem budgetMerge_cons_notMem (p : String × Int) (a b : Budget)
    (h : (b.any fun q => q.1 == p.1) = false) :
    budgetMerge (p :: a) b = p :: budgetMerge a b := by
  simp [budgetMerge, List.filter_cons, h]

theorem budgetLookup_budgetMerge (a b : Budget) (k : String) :
    budgetLookup (budgetMerge a b) k
      = if (budgetLookup b k).isSome then budgetLookup b k else budgetLookup a k := by
  induction a with
  | nil =>
    rw [budgetMerge_nil]
    cases h : budgetLookup b k with
    | none => simp [h, budgetLookup]
    | some v => simp [h]
  | cons p a ih =>
    cases hb : (b.any fun q => q.1 == p.1) with
    | true =>
      rw [budgetMerge_cons_mem p a b hb, ih]
      cases hk : (p.1 == k) with
      | true =>
        have hpk : p.1 = k := eq_of_beq hk
        have hsome : (budgetLookup b k).isSome = true := by
          rw [budgetLookup_isSome_any, ← hpk]
          exact hb
        rw [hsome]
        simp
      | false =>
        rw [budgetLookup_cons_neg p a k hk]
    | false =>
      rw [budgetMerge_cons_notMem p a b hb]
      cases hk : (p.1 == k) with
      | true =>
        have hpk : p.1 = k := eq_of_beq hk
        have hnone : (budgetLookup b k).isSome = false := by
          rw [budgetLookup_isSome_any, ← hpk]
          exact hb
        rw [budgetLookup_cons_pos p (budgetMerge a b) k hk,
          budgetLookup_cons_pos p a k hk, hnone]
        simp
      | false =>
        rw [budgetLookup_cons_neg p (budgetMerge a b) k hk,
          budgetLookup_cons_neg p a k hk]
        exact ih

theorem dispatch_setBudget_storeBudgets (s : AppState) (month : Option MonthKey)
    (patch : Budget) :
    (dispatch s (AssistantAction.setBudget month patch)).storeBudgets
      = saveBudgets s.storeBudgets (month.getD s.viewedMonth)
          (budgetMerge s.budgets patch) := by
  unfold dispatch
  dsimp only
  by_cases h2 : month.getD s.viewedMonth = s.viewedMonth
  · simp only [h2, if_true]
    by_cases h1 : monthAfter s.viewedMonth s.currentMonth <;> simp [h1, h2]
  · simp only [h2, if_false]
    by_cases h1 : monthAfter (month.getD s.viewedMonth) s.currentMonth <;> simp [h1]

/-- C5 (amended): `SET_BUDGET` computes its target month `T` as the
payload month, defaulting to the viewed month; it saves under `T` the
merge of the *viewed month's in-memory budget snapshot* with the
supplied pairs — so entries of `T`'s previously stored budget survive
exactly when `T` is the viewed month, whose snapshot they are —
leaves the stored budgets of every other month and `viewedMonth`
unchanged, and advances `currentMonth` to `T` exactly when `T` is
chronologically later.  Within the merge, categories named by the
payload take its values and categories of the snapshot not named by
the payload keep theirs. -/
theorem dispatch_setBudget_spec (s : AppState) (month : Option MonthKey)
    (patch : Budget) :
    (dispatch s (AssistantAction.setBudget month patch)).storeBudgets
        (month.getD s.viewedMonth)
        = some (budgetMerge s.budgets patch) ∧
    (∀ m, m ≠ month.getD s.viewedMonth →
      (dispatch s (AssistantAction.setBudget month patch)).storeBudgets m
          = s.storeBudgets m) ∧
    (dispatch s (AssistantAction.setBudget month patch)).viewedMonth
        = s.viewedMonth ∧
    (dispatch s (AssistantAction.setBudget month patch)).currentMonth
        = (if monthAfter (month.getD s.viewedMonth) s.currentMonth
           then month.getD s.viewedMonth else s.currentMonth) ∧
    (∀ cat, budgetLookup patch cat = none →
        budgetLookup (budgetMerge s.budgets patch) cat = budgetLookup s.budgets cat) ∧
    (∀ cat v, budgetLookup patch cat = some v →
        budgetLookup (budgetMerge s.budgets patch) cat = some v) := by
  refine ⟨?_, ?_, dispatch_setBudget_viewedMonth s month patch,
    dispatch_setBudget_currentMonth s month patch, ?_, ?_⟩
  · rw [dispatch_setBudget_storeBudgets]
    simp [saveBudgets]
  · intro m hm
    rw [dispatch_setBudget_storeBudgets]
    simp [saveBudgets, hm]
  · intro cat hnone
    rw [budgetLookup_budgetMerge, hnone]
    simp
  · intro cat v hsome
    rw [budgetLookup_budgetMerge, hsome]
    simp

/-- The concrete pre-state for the C5 counterexample: month 2025-7 has
a stored budget with an `Aluguel` entry, while the viewed month is
2025-9 with snapshot `sampleBudgets`. -/
def c5State : AppState :=
  { sampleAppState with
    storeBudgets := fun k => if k = ⟨2025, 7⟩ then some [("Aluguel", 120000)] else none }

/-- Counterexample to C5 as stated: targeting month 2025-7 (not the
viewed month) with a patch naming only `Internet`, the stored `Aluguel`
entry of 2025-7 — named by neither the patch nor the viewed snapshot —
is *not* kept: the saved budget is the viewed snapshot merged with the
patch. -/
theorem dispatch_setBudget_counterexample :
    budgetLookup ((c5State.storeBudgets ⟨2025, 7⟩).getD []) "Aluguel" = some 120000 ∧
    budgetLookup [(("Internet" : String), (9900 : Int))] "Aluguel" = none ∧
    budgetLookup
        (((dispatch c5State
            (AssistantAction.setBudget (some ⟨2025, 7⟩) [("Internet", 9900)])).storeBudgets
          ⟨2025, 7⟩).getD [])
        "Aluguel" = none := by
  refine ⟨?_, ?_, ?_⟩ <;> decide

/-- Witness for the amended C5 at a concrete state and payload. -/
theorem dispatch_setBudget_spec_witness :
    (dispatch sampleAppState
        (AssistantAction.setBudget none [("Internet", 9900)])).storeBudgets
        sampleAppState.viewedMonth
        = some (budgetMerge sampleAppState.budgets [("Internet", 9900)]) ∧
    budgetLookup [(("Internet" : String), (9900 : Int))] "Mercado" = none ∧
    budgetLookup (budgetMerge sampleAppState.budgets [("Internet", 9900)]) "Mercado"
        = budgetLookup sampleAppState.budgets "Mercado" := by
  have h := dispatch_setBudget_spec sampleAppState none [("Internet", 9900)]
  exact ⟨h.1, by decide, h.2.2.2.2.1 "Mercado" (by decide)⟩

theorem budgetLookup_budgetDeleteKey_self (b : Budget) (k : String) :
    budgetLookup (budgetDeleteKey b k) k = none := by
  induction b with
  | nil => rfl
  | cons p b ih =>
    cases h : (p.1 == k) with
    | true =>
      rw [show budgetDeleteKey (p :: b) k = budgetDeleteKey b k from by
        simp [budgetDeleteKey, List.filter_cons, h]]
      exact ih
    | false =>
      rw [show budgetDeleteKey (p :: b) k = p :: budgetDeleteKey b k from by
        simp [budgetDeleteKey, List.filter_cons, h]]
      rw [budgetLookup_cons_neg p _ k h]
      exact ih

theorem budgetLookup_budgetDeleteKey_other (b : Budget) (k cat : String)
    (h : (cat == k) = false) :
    budgetLookup (budgetDeleteKey b k) cat = budgetLookup b cat := by
  induction b with
  | nil => rfl
  | cons p b ih =>
    cases hpk : (p.1 == k) with
    | true =>
      have hpc : (p.1 == cat) = false := by
        have : p.1 = k := eq_of_beq hpk
        subst this
        cases hc : (p.1 == cat) with
        | false => rfl
        | true =>
          have : p.1 = cat := eq_of_beq hc
          subst this
          simp at h
      rw [show budgetDeleteKey (p :: b) k = budgetDeleteKey b k from by
        simp [budgetDeleteKey, List.filter_cons, hpk]]
      rw [budgetLookup_cons_neg p b cat hpc]
      exact ih
    | false =>
      rw [show budgetDeleteKey (p :: b) k = p :: budgetDeleteKey b k from by
        simp [budgetDeleteKey, List.filter_cons, hpk]]
      cases hpc : (p.1 == cat) with
      | true =>
        rw [budgetLookup_cons_pos p _ cat hpc, budgetLookup_cons_pos p b cat hpc]
      | false =>
        rw [budgetLookup_cons_neg p _ cat hpc, budgetLookup_cons_neg p b cat hpc]
        exact ih

/-- C8 (amended): `DELETE_CATEGORY` removes the category's exact key
from the viewed month's in-memory budget snapshot (other keys keep
their values) and removes every case-insensitively matching expense
from the two in-memory lists; the store cascade of
`deleteCategoryFromDB`, however, is narrower than the in-memory one:
the viewed month's store partition loses only the expenses whose
category equals the deleted name *exactly* (case-sensitive `===`), and
the stored budget loses the key only when the stored budget exists and
maps it to a truthy (non-zero) amount.  Other months' stored budgets,
and stored expenses of other months or other categories, are
unchanged. -/
theorem dispatch_deleteCategory_spec (s : AppState) (category : String) :
    budgetLookup (dispatch s (AssistantAction.deleteCategory category)).budgets category
        = none ∧
    (∀ cat, (cat == category) = false →
      budgetLookup (dispatch s (AssistantAction.deleteCategory category)).budgets cat
          = budgetLookup s.budgets cat) ∧
    (∀ e, e ∈ (dispatch s (AssistantAction.deleteCategory category)).expenses
        ↔ e ∈ s.expenses ∧ ¬ strToLower e.category = strToLower category) ∧
    (∀ e, e ∈ (dispatch s (AssistantAction.deleteCategory category)).allExpenses
        ↔ e ∈ s.allExpenses ∧ ¬ strToLower e.category = strToLower category) ∧
    (∀ e, e ∈ (dispatch s (AssistantAction.deleteCategory category)).storeExpenses
        ↔ e ∈ s.storeExpenses
          ∧ ¬(e.month = s.viewedMonth ∧ e.category = category)) ∧
    ((dispatch s (AssistantAction.deleteCategory category)).storeBudgets s.viewedMonth
        = match s.storeBudgets s.viewedMonth with
          | some b =>
            if truthyLookup b category then some (budgetDeleteKey b category) else some b
          | none => none) ∧
    (∀ m, m ≠ s.viewedMonth →
      (dispatch s (AssistantAction.deleteCategory category)).storeBudgets m
          = s.storeBudgets m) := by
  refine ⟨?_, ?_, ?_, ?_, ?_, ?_, ?_⟩
  · exact budgetLookup_budgetDeleteKey_self s.budgets category
  · intro cat hc
    exact budgetLookup_budgetDeleteKey_other s.budgets category cat hc
  · intro e
    show e ∈ s.expenses.filter (fun e => !(strToLower e.category == strToLower category))
      ↔ _
    rw [List.mem_filter]
    simp
  · intro e
    show e ∈ s.allExpenses.filter (fun e => !(strToLower e.category == strToLower category))
      ↔ _
    rw [List.mem_filter]
    simp
  · intro e
    show e ∈ s.storeExpenses.filter
        (fun e => !(e.month == s.viewedMonth && e.category == category))
      ↔ _
    rw [List.mem_filter]
    simp
    tauto
  · show deleteCategoryFromDB_budgets s.storeBudgets category s.viewedMonth s.viewedMonth
      = _
    unfold deleteCategoryFromDB_budgets
    cases hb : s.storeBudgets s.viewedMonth with
    | some b =>
      dsimp only
      by_cases ht : truthyLookup b category = true
      · rw [if_pos ht, if_pos ht]
        show (if s.viewedMonth = s.viewedMonth
            then some (budgetDeleteKey b category) else s.storeBudgets s.viewedMonth)
          = some (budgetDeleteKey b category)
        rw [if_pos rfl]
      · rw [if_neg ht, if_neg ht]
        exact hb
    | none => exact hb
  · intro m hm
    show deleteCategoryFromDB_budgets s.storeBudgets category s.viewedMonth m
      = s.storeBudgets m
    unfold deleteCategoryFromDB_budgets
    cases hb : s.storeBudgets s.viewedMonth with
    | some b =>
      dsimp only
      by_cases ht : truthyLookup b category = true
      · rw [if_pos ht]
        show (if m = s.viewedMonth
            then some (budgetDeleteKey b category) else s.storeBudgets m)
          = s.storeBudgets m
        rw [if_neg hm]
      · rw [if_neg ht]
    | none => rfl

/-- A viewed-month expense of category `mercado` (lower case, to
exercise the case-insensitive in-memory match against the
case-sensitive store cascade). -/
def c8exp1 : Expense := { id := 1, category := "mercado", amount := 3000, month := ⟨2025, 9⟩ }

/-- A viewed-month expense of an unrelated category. -/
def c8exp2 : Expense := { id := 2, category := "Luz", amount := 2000, month := ⟨2025, 9⟩ }

/-- A stored expense of the deleted category in another month's
partition. -/
def c8exp3 : Expense := { id := 3, category := "mercado", amount := 1000, month := ⟨2025, 8⟩ }

/-- A viewed-month stored expense matching the deleted name exactly. -/
def c8exp4 : Expense := { id := 4, category := "Mercado", amount := 4000, month := ⟨2025, 9⟩ }

/-- The concrete pre-state for the C8 counterexample and witness. -/
def c8State : AppState :=
  { sampleAppState with
    budgets := [("Mercado", 50000), ("Luz", 20000)],
    storeBudgets := fun k => if k = ⟨2025, 9⟩ then some [("Mercado", 50000), ("Luz", 20000)] else none,
    expenses := [c8exp1, c8exp2, c8exp4],
    allExpenses := [c8exp1, c8exp2, c8exp4],
    storeExpenses := [c8exp1, c8exp2, c8exp3, c8exp4] }

/-- A pre-state whose stored budget maps the deleted key to 0. -/
def c8StateZero : AppState :=
  { sampleAppState with
    storeBudgets := fun k => if k = ⟨2025, 9⟩ then some [("Mercado", 0)] else none }

/-- Counterexample to C8 as stated: deleting `Mercado` at `c8State`,
the viewed-month stored expense `c8exp1` of category `mercado` matches
case-insensitively yet *stays* in the store partition (the db cascade
compares with `===`), even though the in-memory list drops it; and at
`c8StateZero`, where the stored budget maps `Mercado` to the falsy
amount 0, the stored budget keeps the key. -/
theorem dispatch_deleteCategory_counterexample :
    strToLower c8exp1.category = strToLower "Mercado" ∧
    c8exp1.month = c8State.viewedMonth ∧
    c8exp1 ∈ c8State.storeExpenses ∧
    c8exp1 ∈ (dispatch c8State (AssistantAction.deleteCategory "Mercado")).storeExpenses ∧
    c8exp1 ∉ (dispatch c8State (AssistantAction.deleteCategory "Mercado")).expenses ∧
    budgetLookup
        (((dispatch c8StateZero
            (AssistantAction.deleteCategory "Mercado")).storeBudgets ⟨2025, 9⟩).getD [])
        "Mercado" = some 0 := by
  refine ⟨?_, ?_, ?_, ?_, ?_, ?_⟩ <;> decide

/-- Witness for the amended C8 at a concrete state: deleting `Mercado`. -/
theorem dispatch_deleteCategory_spec_witness :
    budgetLookup (dispatch c8State (AssistantAction.deleteCategory "Mercado")).budgets
        "Mercado" = none ∧
    (("Luz" : String) == "Mercado") = false ∧
    budgetLookup (dispatch c8State (AssistantAction.deleteCategory "Mercado")).budgets
        "Luz" = budgetLookup c8State.budgets "Luz" ∧
    (c8exp1 ∈ (dispatch c8State (AssistantAction.deleteCategory "Mercado")).expenses
      ↔ c8exp1 ∈ c8State.expenses
        ∧ ¬ strToLower c8exp1.category = strToLower "Mercado") ∧
    (c8exp4 ∈ (dispatch c8State (AssistantAction.deleteCategory "Mercado")).storeExpenses
      ↔ c8exp4 ∈ c8State.storeExpenses
        ∧ ¬(c8exp4.month = c8State.viewedMonth ∧ c8exp4.category = "Mercado")) ∧
    (c8exp3 ∈ (dispatch c8State (AssistantAction.deleteCategory "Mercado")).storeExpenses
      ↔ c8exp3 ∈ c8State.storeExpenses
        ∧ ¬(c8exp3.month = c8State.viewedMonth ∧ c8exp3.category = "Mercado")) := by
  have h := dispatch_deleteCategory_spec c8State "Mercado"
  exact ⟨h.1, by decide, h.2.1 "Luz" (by decide), h.2.2.1 c8exp1,
    h.2.2.2.2.1 c8exp4, h.2.2.2.2.1 c8exp3⟩

/-- C10: in the legacy `ADD_EXPENSE` branch, when at least one payload
entry carries an `installmentGroupId`, every persisted record receives
a non-null group id: the `i`-th record keeps the `i`-th entry's own id
when present and otherwise is assigned the group id of the first entry
that has one. -/
theorem applyLegacyAddExpense_groupId (s : AppState)
    (entries : List LegacyExpenseEntry)
    (hsome : (entries.any fun e => e.installmentGroupId.isSome) = true) :
    ∃ g : Nat,
      ((entries.find? fun e => e.installmentGroupId.isSome).bind
          fun e => e.installmentGroupId) = some g ∧
      ∃ created : List Expense,
        (applyLegacyAddExpense s entries).storeExpenses
            = s.storeExpenses ++ created ∧
        created.length = entries.length ∧
        (∀ i, ∀ hi : i < created.length, ∀ hi2 : i < entries.length,
          created[i].installmentGroupId
              = some ((entries[i].installmentGroupId).getD g)) ∧
        (∀ e ∈ created, e.installmentGroupId.isSome = true) := by
  have hfind : ∃ e0, entries.find? (fun e => e.installmentGroupId.isSome) = some e0 := by
    rw [List.any_eq_true] at hsome
    obtain ⟨x, hx, hpx⟩ := hsome
    cases hf : entries.find? (fun e => e.installmentGroupId.isSome) with
    | none =>
      exfalso
      have := List.find?_eq_none.mp hf x hx
      simp [hpx] at this
    | some e0 => exact ⟨e0, rfl⟩
  obtain ⟨e0, he0⟩ := hfind
  have hp0 := List.find?_some he0
  obtain ⟨g, hg⟩ : ∃ g, e0.installmentGroupId = some g :=
    Option.isSome_iff_exists.mp hp0
  refine ⟨g, by rw [he0]; simpa using hg, ?_⟩
  refine ⟨entries.enum.map
    (fun p => mkLegacyExpense s.viewedMonth true (some g) s.nextId p.1 p.2), ?_, ?_, ?_, ?_⟩
  · show (applyLegacyAddExpense s entries).storeExpenses = _
    unfold applyLegacyAddExpense
    dsimp only
    rw [hsome, if_pos rfl, he0]
    have hgg : e0.installmentGroupId = some g := hg
    rw [show (some e0).bind (fun e => e.installmentGroupId) = some g by simpa using hg]
    rw [foldl_recordExpense_storeExpenses]
    rfl
  · simp [List.enum_length]
  · intro i hi hi2
    have hlen : i < entries.enum.length := by simpa [List.enum_length] using hi2
    rw [List.getElem_map, List.getElem_enum]
    show (if true then (entries[i].installmentGroupId).orElse (fun _ => some g)
        else none) = some ((entries[i].installmentGroupId).getD g)
    rw [if_pos rfl]
    cases entries[i].installmentGroupId with
    | none => rfl
    | some a => rfl
  · intro e he
    simp only [List.mem_map] at he
    obtain ⟨p, _, rfl⟩ := he
    show (if true then (p.2.installmentGroupId).orElse (fun _ => some g)
        else none).isSome = true
    rw [if_pos rfl]
    cases p.2.installmentGroupId with
    | none => rfl
    | some a => rfl

/-- The first legacy entry of the C10 witness: carries its own group id. -/
def legacyEntry1 : LegacyExpenseEntry :=
  { category := "Mercado", amount := 5000, month := some ⟨2025, 9⟩,
    installmentGroupId := some 7 }

/-- The second legacy entry of the C10 witness: no group id of its own. -/
def legacyEntry2 : LegacyExpenseEntry :=
  { category := "Mercado", amount := 5000, month := some ⟨2025, 10⟩ }

/-- Witness for C10 at a concrete two-entry legacy payload. -/
theorem applyLegacyAddExpense_groupId_witness :
    ([legacyEntry1, legacyEntry2].any fun e => e.installmentGroupId.isSome) = true ∧
    (∃ g : Nat,
      (([legacyEntry1, legacyEntry2].find? fun e => e.installmentGroupId.isSome).bind
          fun e => e.installmentGroupId) = some g ∧
      ∃ created : List Expense,
        (applyLegacyAddExpense sampleAppState [legacyEntry1, legacyEntry2]).storeExpenses
            = sampleAppState.storeExpenses ++ created ∧
        created.length = ([legacyEntry1, legacyEntry2] : List LegacyExpenseEntry).length ∧
        (∀ i, ∀ hi : i < created.length,
          ∀ hi2 : i < ([legacyEntry1, legacyEntry2] : List LegacyExpenseEntry).length,
          created[i].installmentGroupId
              = some ((([legacyEntry1, legacyEntry2] :
                  List LegacyExpenseEntry)[i].installmentGroupId).getD g)) ∧
        (∀ e ∈ created, e.installmentGroupId.isSome = true)) :=
  ⟨by decide,
    applyLegacyAddExpense_groupId sampleAppState [legacyEntry1, legacyEntry2] (by decide)⟩
